import Mathlib

/-!
Verification of the Lisp-like parser/evaluator (`src/lib.rs`).

The Rust source is shallowly embedded:
* `Ast` and `Value` mirror the two tagged unions.  The Rust payload
  `InbuiltFunc(fn(Vec<Value>) -> Value)` (a host function pointer) is
  defunctionalised to a name; evaluation takes a host table
  `ι : String → List Value → Value` interpreting these names.  Host
  primitives are external collaborators of the core and are modelled as
  total functions (the test-module primitive `if_` is modelled separately,
  with `Option` capturing its panics).
* `HashMap<Rc<String>, Value>` becomes an association list `Env`; `insert`
  conses (lookup-equivalent to overwrite), `lookup` finds the first match.
* `eval` takes a fuel parameter (the Rust `eval` can recurse for ever,
  e.g. through a self-calling `Function` value); `none` models
  non-termination / fuel exhaustion, `some (.error _)` models a `panic!`,
  and `some (.ok _)` a normal return.  The `u64` payload of `Int` is
  modelled as `Nat`; no claim touches arithmetic overflow.
* warnings (`println!` diagnostics that do not stop evaluation) are
  returned as an explicit list.
-/

mutual

/-- The source's `enum Ast`: literals, variable references, calls and
definitions. -/
inductive Ast where
  | Lit : Value → Ast
  | Variable : String → Ast
  | Call : Ast → List Ast → Ast
  | Define : String → Ast → Ast

/-- The source's `enum Value`.  `Int` carries a `u64` in Rust, modelled
as `Nat`; `InbuiltFunc` carries a host function pointer, modelled as the
name under which the host registered it. -/
inductive Value where
  | Void : Value
  | False : Value
  | Int : Nat → Value
  | Function : List String → List Ast → Value
  | InbuiltFunc : String → Value

end

/-- The source's `impl PartialEq for Value`: same tag and same payload, with every
`Function`/`InbuiltFunc` comparison false. -/
def valueEq : Value → Value → Bool
  | .Void, .Void => true
  | .False, .False => true
  | .Int a, .Int b => a == b
  | _, _ => false

/-- Discriminant of a `Value`, used to state cross-tag claims. -/
def tagOf : Value → Nat
  | .Void => 0
  | .False => 1
  | .Int _ => 2
  | .Function _ _ => 3
  | .InbuiltFunc _ => 4

/-- The evaluator's environment, `HashMap<Rc<String>, Value>` in the
source, modelled as an association list. -/
abbrev Env := List (String × Value)

/-- Lookup, `HashMap::get`: first binding of the name, if any. -/
def Env.lookup : Env → String → Option Value
  | [], _ => none
  | (k, v) :: e, name => if k = name then some v else Env.lookup e name

/-- Insertion, `HashMap::insert`: a later binding shadows earlier ones
(lookup-equivalent to overwriting in place). -/
def Env.insert (e : Env) (k : String) (v : Value) : Env := (k, v) :: e

/-- The two `panic!`s reachable from `eval` itself. -/
inductive EvalErr where
  | undefinedVariable : String → EvalErr
  | notAFunction : EvalErr
deriving DecidableEq

/-- Non-fatal diagnostics: the `println!` for a parameter/argument count
mismatch (carrying expected and got counts). -/
inductive Warning where
  | arityMismatch : Nat → Nat → Warning
deriving DecidableEq

/-- Bind for `Option (Except EvalErr _)`: `none` (out of fuel) and
`some (.error _)` (panic) both cut evaluation short. -/
def evalBind {α β : Type} (x : Option (Except EvalErr α))
    (f : α → Option (Except EvalErr β)) : Option (Except EvalErr β) :=
  match x with
  | none => none
  | some (.error e) => some (.error e)
  | some (.ok a) => f a

@[simp] theorem evalBind_none {α β : Type} (f : α → Option (Except EvalErr β)) :
    evalBind none f = none := rfl

@[simp] theorem evalBind_error {α β : Type} (e : EvalErr)
    (f : α → Option (Except EvalErr β)) :
    evalBind (some (.error e)) f = some (.error e) := rfl

@[simp] theorem evalBind_ok {α β : Type} (a : α)
    (f : α → Option (Except EvalErr β)) :
    evalBind (some (.ok a)) f = f a := rfl

/-- One evaluation outcome: resulting value, caller environment after the
evaluation (the source mutates it through `&mut`), and emitted warnings. -/
abbrev EvalOut := Value × Env × List Warning

/-- The `for (name, val) in args.into_iter().zip(arguments)` loop of the
`Function` call case: pairs parameters with argument expressions up to the
shorter length, evaluates each argument against the caller's (threaded)
environment `env`, and inserts the value under the parameter name into the
callee's `scope`.  Returns the caller environment and the scope after the
loop.  `ev` is the evaluator applied to the current fuel. -/
def bindArgsF (ev : Ast → Env → Option (Except EvalErr EvalOut)) :
    List String → List Ast → Env → Env →
    Option (Except EvalErr (Env × Env × List Warning))
  | [], _, env, scope => some (.ok (env, scope, []))
  | _ :: _, [], env, scope => some (.ok (env, scope, []))
  | p :: ps, a :: rest, env, scope =>
    evalBind (ev a env) fun vew =>
      evalBind (bindArgsF ev ps rest vew.2.1 (scope.insert p vew.1)) fun r =>
        some (.ok (r.1, r.2.1, vew.2.2 ++ r.2.2))

/-- The `let mut out = Void; for stmt in body { out = eval(stmt, …) }`
loop: statements run in order against the threaded scope, the last
statement's value is returned, and an empty body yields `Void`. -/
def evalBodyF (ev : Ast → Env → Option (Except EvalErr EvalOut)) :
    List Ast → Env → Option (Except EvalErr EvalOut)
  | [], scope => some (.ok (.Void, scope, []))
  | stmt :: rest, scope =>
    evalBind (ev stmt scope) fun vew =>
      match rest with
      | [] => some (.ok vew)
      | _ :: _ =>
        evalBind (evalBodyF ev rest vew.2.1) fun r =>
          some (.ok (r.1, r.2.1, vew.2.2 ++ r.2.2))

/-- The `arguments.into_iter().map(|ast| eval(ast, variables)).collect()`
of the `InbuiltFunc` call case: every argument is evaluated, left to
right, against the threaded caller environment. -/
def evalListF (ev : Ast → Env → Option (Except EvalErr EvalOut)) :
    List Ast → Env → Option (Except EvalErr (List Value × Env × List Warning))
  | [], env => some (.ok ([], env, []))
  | a :: rest, env =>
    evalBind (ev a env) fun vew =>
      evalBind (evalListF ev rest vew.2.1) fun r =>
        some (.ok (vew.1 :: r.1, r.2.1, vew.2.2 ++ r.2.2))

/-- The source's `pub fn eval(program: Ast, variables: &mut HashMap<…>) -> Value`,
with fuel (the source can recurse for ever) and with the host table `ι`
interpreting `InbuiltFunc` names.  Mirrors the source case by case:
literals return themselves; variables look up or panic; `Call` evaluates
the callee, then for a `Function` clones the caller's environment into a
new scope *before* binding arguments, zips parameters with arguments
(warning, not error, on a length mismatch), and runs the body against the
new scope, discarding that scope afterwards; for an `InbuiltFunc` it
evaluates all arguments and applies the host function; anything else
panics.  `Define` evaluates the value then inserts it, returning `Void`. -/
def eval (ι : String → List Value → Value) :
    Nat → Ast → Env → Option (Except EvalErr EvalOut)
  | 0, _, _ => none
  | fuel + 1, ast, env =>
    match ast with
    | .Lit v => some (.ok (v, env, []))
    | .Variable name =>
      match env.lookup name with
      | some v => some (.ok (v, env, []))
      | none => some (.error (.undefinedVariable name))
    | .Call func args =>
      evalBind (eval ι fuel func env) fun few =>
        match few.1 with
        | .Function params body =>
          let warn : List Warning :=
            if args.length = params.length then []
            else [.arityMismatch params.length args.length]
          evalBind (bindArgsF (eval ι fuel) params args few.2.1 few.2.1) fun bs =>
            evalBind (evalBodyF (eval ι fuel) body bs.2.1) fun out =>
              some (.ok (out.1, bs.1, few.2.2 ++ warn ++ bs.2.2 ++ out.2.2))
        | .InbuiltFunc name =>
          evalBind (evalListF (eval ι fuel) args few.2.1) fun vs =>
            some (.ok (ι name vs.1, vs.2.1, few.2.2 ++ vs.2.2))
        | _ => some (.error .notAFunction)
    | .Define name value =>
      evalBind (eval ι fuel value env) fun vew =>
        some (.ok (.Void, Env.insert vew.2.1 name vew.1, vew.2.2))

/-- The test-module conditional primitive `if_`: first argument is the
condition (panic when absent), second the then-value (panic when absent),
third the else-value (defaulting to `Void`), panic on more than three
arguments; `False` selects the else-value, everything else the
then-value.  `none` models the panics. -/
def if_ (vs : List Value) : Option Value :=
  match vs with
  | [] => none
  | [_] => none
  | [first, second] =>
    some (match first with | .False => .Void | _ => second)
  | [first, second, third] =>
    some (match first with | .False => third | _ => second)
  | _ => none

/-!
The parser (`parser! { pub fn expr … }`).  `combine` parsers follow
Parsec's consumed/empty discipline: a result records whether input was
consumed, `choice!` tries the next alternative only after a failure that
consumed nothing, and sequencing commits once an earlier element has
consumed input.  Input is the character stream (a `List Char`).

`satisfy(char::is_whitespace)` and `letter()` use Rust's Unicode
classifiers; they are modelled by `Char.isWhitespace` and `Char.isAlpha`,
which agree on the ASCII programs all claims and tests involve.
-/

/-- Outcome of a parser: parsed value plus remaining input, or failure;
both record whether input was consumed. -/
inductive PResult (α : Type) where
  | ok (a : α) (rest : List Char) (consumed : Bool)
  | err (consumed : Bool)
deriving DecidableEq

/-- A `combine` parser over a character stream. -/
def PStream (α : Type) : Type := List Char → PResult α

/-- Primitive `char(c)`: one exact character; fails without consuming. -/
def charP (c : Char) : PStream Char := fun s =>
  match s with
  | [] => .err false
  | x :: r => if x = c then .ok c r true else .err false

/-- Primitive `string(t)`: the exact characters of `t`; a mismatch after the first
matched character is a consumed failure. -/
def stringP : List Char → PStream (List Char)
  | [], s => .ok [] s false
  | c :: t, s =>
    match s with
    | [] => .err false
    | x :: r =>
      if x = c then
        match stringP t r with
        | .ok v rest _ => .ok (c :: v) rest true
        | .err _ => .err true
      else .err false

/-- Combinator `map`: transform the parsed value. -/
def mapP {α β : Type} (f : α → β) (p : PStream α) : PStream β := fun s =>
  match p s with
  | .ok a r c => .ok (f a) r c
  | .err c => .err c

/-- Sequencing (`combine` tuples): run the second parser on the first's
remainder; consumption and failure commitment accumulate. -/
def seqP {α β : Type} (p : PStream α) (q : PStream β) : PStream (α × β) := fun s =>
  match p s with
  | .ok a r c =>
    match q r with
    | .ok b r2 c2 => .ok (a, b) r2 (c || c2)
    | .err c2 => .err (c || c2)
  | .err c => .err c

/-- Combinator `choice!` of two alternatives: the second runs only when the first
fails without consuming input. -/
def orElseP {α : Type} (p q : PStream α) : PStream α := fun s =>
  match p s with
  | .err false => q s
  | r => r

/-- Combinator `between(l, r, p)`: `l`, then `p`, then `r`, keeping `p`'s value. -/
def betweenP {α β γ : Type} (l : PStream β) (r : PStream γ) (p : PStream α) :
    PStream α :=
  mapP (fun x => x.2.1) (seqP l (seqP p r))

/-- Combinator `skip_many(satisfy(pred))`: drop the maximal prefix satisfying
`pred`; always succeeds, consuming iff the prefix was nonempty. -/
def skipManySatisfy (pred : Char → Bool) : PStream Unit := fun s =>
  let r := s.dropWhile pred
  .ok () r (r.length != s.length)

/-- The `white!` macro: `between(skip_many(ws), skip_many(ws), p)`. -/
def whiteP {α : Type} (p : PStream α) : PStream α :=
  betweenP (skipManySatisfy Char.isWhitespace) (skipManySatisfy Char.isWhitespace) p

/-- Combinator `many1(satisfy(pred))`: the maximal nonempty prefix satisfying
`pred`; fails without consuming when the first character does not. -/
def many1Satisfy (pred : Char → Bool) : PStream (List Char) := fun s =>
  match s with
  | [] => .err false
  | c :: r =>
    if pred c then .ok (c :: r.takeWhile pred) (r.dropWhile pred) true
    else .err false

/-- Work loop of `many p`: iterate `p` while it succeeds consuming input;
a failure without consumption ends the loop, a consumed failure fails the
whole `many`.  The fuel bounds the iteration count (each continuing step
consumes at least one character, so `input length + 1` never runs out); a
success without consumption is `combine`'s unproductive-repetition error. -/
def manyAux {α : Type} (p : PStream α) :
    Nat → List α → Bool → PStream (List α)
  | 0, _, _, _ => .err true
  | fuel + 1, acc, consumed, s =>
    match p s with
    | .ok a rest true => manyAux p fuel (acc ++ [a]) true rest
    | .ok _ _ false => .err true
    | .err true => .err true
    | .err false => .ok acc s consumed

/-- Combinator `many(p)`: zero or more repetitions of `p`. -/
def manyP {α : Type} (p : PStream α) : PStream (List α) := fun s =>
  manyAux p (s.length + 1) [] false s

/-- Parser `ident()`: `white!(many1(letter()))`, collected into a `String`. -/
def identP : PStream String :=
  whiteP (mapP (fun cs => String.mk cs) (many1Satisfy Char.isAlpha))

/-- Parser `flse`: `white!(string("#f"))` mapped to the false literal. -/
def flseP : PStream Ast :=
  mapP (fun _ => Ast.Lit Value.False) (whiteP (stringP ['#', 'f']))

/-- Digit run to its numeric value. -/
def digitsToNat (cs : List Char) : Nat :=
  cs.foldl (fun n c => 10 * n + (c.toNat - 48)) 0

/-- Parser `lit_num`: `many1(digit())` mapped through `parse::<u64>` (whose
panic on overflow past `u64::MAX` is outside every claim and not
modelled). -/
def litNumP : PStream Ast :=
  mapP (fun cs => Ast.Lit (Value.Int (digitsToNat cs))) (many1Satisfy Char.isDigit)

/-- The `function` production: `(white!(lambda), white!(between(char('('),
char(')'), many(ident()))), many(expr()))` mapped to a `Function`
literal.  `e` is the recursive expression parser. -/
def functionP (e : PStream Ast) : PStream Ast :=
  mapP (fun x => Ast.Lit (Value.Function x.2.1 x.2.2))
    (seqP (whiteP (charP '\\'))
      (seqP (whiteP (betweenP (charP '(') (charP ')') (manyP identP)))
        (manyP e)))

/-- The `define` production: `(white!(eq), ident(), expr())` mapped to
`Define`. -/
def defineP (e : PStream Ast) : PStream Ast :=
  mapP (fun x => Ast.Define x.2.1 x.2.2)
    (seqP (whiteP (charP '=')) (seqP identP e))

/-- The `call` production: `(expr(), many(expr()))` mapped to `Call`. -/
def callP (e : PStream Ast) : PStream Ast :=
  mapP (fun x => Ast.Call x.1 x.2) (seqP e (manyP e))

/-- The parenthesised alternatives, in the source's priority order:
`choice!(function, define, call)`. -/
def parenInnerP (e : PStream Ast) : PStream Ast :=
  orElseP (functionP e) (orElseP (defineP e) (callP e))

/-- One unrolling of `expr`: `white!(choice!(flse, lit_num,
ident().map(Ast::Variable), between(char('('), char(')'),
choice!(function, define, call))))`. -/
def exprF (e : PStream Ast) : PStream Ast :=
  whiteP (orElseP flseP (orElseP litNumP
    (orElseP (mapP Ast.Variable identP)
      (betweenP (charP '(') (charP ')') (parenInnerP e)))))

/-- The recursive `expr` parser, with fuel bounding the recursion depth
(the `parser!` macro ties the knot; fuel 0 fails without consuming). -/
def expr : Nat → PStream Ast
  | 0 => fun _ => .err false
  | n + 1 => exprF (expr n)

/-- Two environments with the same contents: every lookup agrees. -/
def EnvEquiv (e1 e2 : Env) : Prop := ∀ k, Env.lookup e1 k = Env.lookup e2 k

/-- Relates two evaluation outcomes: both out of fuel, both the same
panic, or both normal returns with `P`-related payloads. -/
inductive OutRel {α β : Type} (P : α → β → Prop) :
    Option (Except EvalErr α) → Option (Except EvalErr β) → Prop where
  | noneRel : OutRel P none none
  | errRel (e : EvalErr) : OutRel P (some (.error e)) (some (.error e))
  | okRel {a : α} {b : β} : P a b → OutRel P (some (.ok a)) (some (.ok b))

/-- Payload relation for `eval` outcomes: same value, environments with
the same contents, same warnings. -/
def OutEquiv (a b : EvalOut) : Prop := a.1 = b.1 ∧ EnvEquiv a.2.1 b.2.1 ∧ a.2.2 = b.2.2

/-- Payload relation for `bindArgsF` outcomes. -/
def BindEquiv (a b : Env × Env × List Warning) : Prop :=
  EnvEquiv a.1 b.1 ∧ EnvEquiv a.2.1 b.2.1 ∧ a.2.2 = b.2.2

/-- Payload relation for `evalListF` outcomes. -/
def ListEquiv (a b : List Value × Env × List Warning) : Prop :=
  a.1 = b.1 ∧ EnvEquiv a.2.1 b.2.1 ∧ a.2.2 = b.2.2

/-- A parse result that is not an empty (uncommitted) failure; `choice!`
returns such a result from the alternative that produced it without
consulting later alternatives. -/
def Committed {α : Type} (r : PResult α) : Prop := r ≠ .err false

theorem Env.lookup_insert_self (e : Env) (k : String) (v : Value) :
    Env.lookup (e.insert k v) k = some v := by
  simp [Env.insert, Env.lookup]

theorem Env.lookup_insert_ne (e : Env) (k k2 : String) (v : Value) (h : k2 ≠ k) :
    Env.lookup (e.insert k v) k2 = Env.lookup e k2 := by
  have hk : ¬ (k = k2) := fun h2 => h h2.symm
  simp [Env.insert, Env.lookup, hk]

theorem EnvEquiv.refl (e : Env) : EnvEquiv e e := fun _ => rfl

theorem EnvEquiv.insert {e1 e2 : Env} (h : EnvEquiv e1 e2) (k : String) (v : Value) :
    EnvEquiv (e1.insert k v) (e2.insert k v) := by
  intro k2
  by_cases hk : k = k2 <;> simp [Env.insert, Env.lookup, hk, h k2]

theorem OutRel.bind {α β γ δ : Type} {P : α → β → Prop} {Q : γ → δ → Prop}
    {x1 : Option (Except EvalErr α)} {x2 : Option (Except EvalErr β)}
    {f1 : α → Option (Except EvalErr γ)} {f2 : β → Option (Except EvalErr δ)}
    (hx : OutRel P x1 x2) (hf : ∀ a b, P a b → OutRel Q (f1 a) (f2 b)) :
    OutRel Q (evalBind x1 f1) (evalBind x2 f2) := by
  cases hx with
  | noneRel => exact .noneRel
  | errRel e => exact .errRel e
  | okRel h => exact hf _ _ h

theorem bindArgsF_envEquiv {ev1 ev2 : Ast → Env → Option (Except EvalErr EvalOut)}
    (hev : ∀ (a : Ast) (e1 e2 : Env), EnvEquiv e1 e2 →
      OutRel OutEquiv (ev1 a e1) (ev2 a e2)) :
    ∀ (ps : List String) (args : List Ast) {env1 env2 scope1 scope2 : Env},
    EnvEquiv env1 env2 → EnvEquiv scope1 scope2 →
    OutRel BindEquiv (bindArgsF ev1 ps args env1 scope1)
      (bindArgsF ev2 ps args env2 scope2) := by
  intro ps
  induction ps with
  | nil =>
    intro args env1 env2 scope1 scope2 h1 h2
    exact .okRel ⟨h1, h2, rfl⟩
  | cons p ps ih =>
    intro args env1 env2 scope1 scope2 h1 h2
    cases args with
    | nil => exact .okRel ⟨h1, h2, rfl⟩
    | cons a rest =>
      simp only [bindArgsF]
      refine OutRel.bind (hev a _ _ h1) ?_
      rintro ⟨v1, e1, w1⟩ ⟨v2, e2, w2⟩ ⟨hv, he, hw⟩
      cases hv; cases hw
      refine OutRel.bind (ih rest he (h2.insert p v1)) ?_
      rintro ⟨e1b, s1b, w1b⟩ ⟨e2b, s2b, w2b⟩ ⟨hA, hB, hC⟩
      cases hC
      exact .okRel ⟨hA, hB, rfl⟩

theorem evalBodyF_envEquiv {ev1 ev2 : Ast → Env → Option (Except EvalErr EvalOut)}
    (hev : ∀ (a : Ast) (e1 e2 : Env), EnvEquiv e1 e2 →
      OutRel OutEquiv (ev1 a e1) (ev2 a e2)) :
    ∀ (body : List Ast) {scope1 scope2 : Env}, EnvEquiv scope1 scope2 →
    OutRel OutEquiv (evalBodyF ev1 body scope1) (evalBodyF ev2 body scope2) := by
  intro body
  induction body with
  | nil => intro scope1 scope2 h; exact .okRel ⟨rfl, h, rfl⟩
  | cons stmt rest ih =>
    intro scope1 scope2 h
    simp only [evalBodyF]
    refine OutRel.bind (hev stmt _ _ h) ?_
    rintro ⟨v1, s1, w1⟩ ⟨v2, s2, w2⟩ ⟨hv, hs, hw⟩
    cases hv; cases hw
    cases rest with
    | nil => exact .okRel ⟨rfl, hs, rfl⟩
    | cons s2h t2 =>
      refine OutRel.bind (ih hs) ?_
      rintro ⟨v1b, s1b, w1b⟩ ⟨v2b, s2b, w2b⟩ ⟨hA, hB, hC⟩
      cases hA; cases hC
      exact .okRel ⟨rfl, hB, rfl⟩

theorem evalListF_envEquiv {ev1 ev2 : Ast → Env → Option (Except EvalErr EvalOut)}
    (hev : ∀ (a : Ast) (e1 e2 : Env), EnvEquiv e1 e2 →
      OutRel OutEquiv (ev1 a e1) (ev2 a e2)) :
    ∀ (args : List Ast) {env1 env2 : Env}, EnvEquiv env1 env2 →
    OutRel ListEquiv (evalListF ev1 args env1) (evalListF ev2 args env2) := by
  intro args
  induction args with
  | nil => intro env1 env2 h; exact .okRel ⟨rfl, h, rfl⟩
  | cons a rest ih =>
    intro env1 env2 h
    simp only [evalListF]
    refine OutRel.bind (hev a _ _ h) ?_
    rintro ⟨v1, e1, w1⟩ ⟨v2, e2, w2⟩ ⟨hv, he, hw⟩
    cases hv; cases hw
    refine OutRel.bind (ih he) ?_
    rintro ⟨vs1, e1b, w1b⟩ ⟨vs2, e2b, w2b⟩ ⟨hA, hB, hC⟩
    cases hA; cases hC
    exact .okRel ⟨rfl, hB, rfl⟩

theorem eval_envEquiv (ι : String → List Value → Value) :
    ∀ (n : Nat) (ast : Ast) {env1 env2 : Env}, EnvEquiv env1 env2 →
    OutRel OutEquiv (eval ι n ast env1) (eval ι n ast env2) := by
  intro n
  induction n with
  | zero => intro ast env1 env2 h; exact .noneRel
  | succ n ih =>
    intro ast env1 env2 h
    cases ast with
    | Lit v => exact .okRel ⟨rfl, h, rfl⟩
    | Variable name =>
      simp only [eval]
      rw [h name]
      cases Env.lookup env2 name with
      | none => exact .errRel _
      | some v => exact .okRel ⟨rfl, h, rfl⟩
    | Define name value =>
      simp only [eval]
      refine OutRel.bind (ih value h) ?_
      rintro ⟨v1, e1, w1⟩ ⟨v2, e2, w2⟩ ⟨hv, he, hw⟩
      cases hv; cases hw
      exact .okRel ⟨rfl, he.insert name v1, rfl⟩
    | Call func args =>
      simp only [eval]
      refine OutRel.bind (ih func h) ?_
      rintro ⟨fv1, e1, w1⟩ ⟨fv2, e2, w2⟩ ⟨hv, he, hw⟩
      cases hv; cases hw
      cases fv1 with
      | Function params body =>
        refine OutRel.bind
          (bindArgsF_envEquiv (fun a _ _ hh => ih a hh) params args he he) ?_
        rintro ⟨be1, bsc1, bw1⟩ ⟨be2, bsc2, bw2⟩ ⟨hA, hB, hC⟩
        cases hC
        refine OutRel.bind (evalBodyF_envEquiv (fun a _ _ hh => ih a hh) body hB) ?_
        rintro ⟨ov1, os1, ow1⟩ ⟨ov2, os2, ow2⟩ ⟨hD, hE, hF⟩
        cases hD; cases hF
        exact .okRel ⟨rfl, hA, rfl⟩
      | InbuiltFunc nm =>
        refine OutRel.bind (evalListF_envEquiv (fun a _ _ hh => ih a hh) args he) ?_
        rintro ⟨vs1, le1, lw1⟩ ⟨vs2, le2, lw2⟩ ⟨hA, hB, hC⟩
        cases hA; cases hC
        exact .okRel ⟨rfl, hB, rfl⟩
      | Void => exact .errRel _
      | False => exact .errRel _
      | Int k => exact .errRel _

theorem bindArgsF_take (ev : Ast → Env → Option (Except EvalErr EvalOut)) :
    ∀ (ps : List String) (args : List Ast) (env scope : Env),
    bindArgsF ev ps args env scope = bindArgsF ev ps (args.take ps.length) env scope := by
  intro ps
  induction ps with
  | nil => intro args env scope; simp [bindArgsF]
  | cons p ps ih =>
    intro args env scope
    cases args with
    | nil => simp [bindArgsF]
    | cons a rest =>
      simp only [List.length_cons, List.take_succ_cons, bindArgsF]
      apply congrArg
      funext vew
      rw [ih rest]

theorem bindArgsF_lookup_take (ev : Ast → Env → Option (Except EvalErr EvalOut)) :
    ∀ (ps : List String) (args : List Ast) (env scope env2 scope2 : Env)
      (w : List Warning),
    bindArgsF ev ps args env scope = some (.ok (env2, scope2, w)) →
    ∀ k, k ∉ ps.take args.length → Env.lookup scope2 k = Env.lookup scope k := by
  intro ps
  induction ps with
  | nil =>
    intro args env scope env2 scope2 w h k _
    simp only [bindArgsF, Option.some.injEq, Except.ok.injEq, Prod.mk.injEq] at h
    rw [← h.2.1]
  | cons p ps ih =>
    intro args env scope env2 scope2 w h k hk
    cases args with
    | nil =>
      simp only [bindArgsF, Option.some.injEq, Except.ok.injEq, Prod.mk.injEq] at h
      rw [← h.2.1]
    | cons a rest =>
      simp only [bindArgsF] at h
      cases hv : ev a env with
      | none => rw [hv] at h; simp [evalBind] at h
      | some x =>
        cases x with
        | error e => rw [hv] at h; simp [evalBind] at h
        | ok vew =>
          rw [hv] at h
          simp only [evalBind_ok] at h
          cases hb : bindArgsF ev ps rest vew.2.1 (scope.insert p vew.1) with
          | none => rw [hb] at h; simp [evalBind] at h
          | some y =>
            cases y with
            | error e => rw [hb] at h; simp [evalBind] at h
            | ok r =>
              rw [hb] at h
              simp only [evalBind_ok, Option.some.injEq, Except.ok.injEq,
                Prod.mk.injEq] at h
              simp only [List.length_cons, List.take_succ_cons, List.mem_cons,
                not_or] at hk
              rw [← h.2.1]
              rw [ih rest vew.2.1 (scope.insert p vew.1) r.1 r.2.1 r.2.2
                (by rw [hb]) k hk.2]
              exact Env.lookup_insert_ne _ _ _ _ hk.1

theorem evalListF_length (ev : Ast → Env → Option (Except EvalErr EvalOut)) :
    ∀ (args : List Ast) (env : Env) (vals : List Value) (env2 : Env)
      (w : List Warning),
    evalListF ev args env = some (.ok (vals, env2, w)) →
    vals.length = args.length := by
  intro args
  induction args with
  | nil =>
    intro env vals env2 w h
    simp only [evalListF, Option.some.injEq, Except.ok.injEq, Prod.mk.injEq] at h
    rw [← h.1]
    rfl
  | cons a rest ih =>
    intro env vals env2 w h
    simp only [evalListF] at h
    cases hv : ev a env with
    | none => rw [hv] at h; simp [evalBind] at h
    | some x =>
      cases x with
      | error e => rw [hv] at h; simp [evalBind] at h
      | ok vew =>
        rw [hv] at h
        simp only [evalBind_ok] at h
        cases hl : evalListF ev rest vew.2.1 with
        | none => rw [hl] at h; simp [evalBind] at h
        | some y =>
          cases y with
          | error e => rw [hl] at h; simp [evalBind] at h
          | ok r =>
            rw [hl] at h
            simp only [evalBind_ok, Option.some.injEq, Except.ok.injEq,
              Prod.mk.injEq] at h
            rw [← h.1]
            simp [ih vew.2.1 r.1 r.2.1 r.2.2 (by rw [hl])]

theorem orElseP_of_committed {α : Type} {p q : PStream α} {s : List Char}
    (h : Committed (p s)) : orElseP p q s = p s := by
  unfold orElseP
  cases hp : p s with
  | ok a r c => rfl
  | err c =>
    cases c with
    | false => rw [hp] at h; exact absurd rfl h
    | true => rfl

theorem orElseP_ok {α : Type} {p q : PStream α} {s : List Char} {a : α}
    {r : List Char} {c : Bool} (h : p s = .ok a r c) : orElseP p q s = .ok a r c := by
  rw [orElseP_of_committed (by rw [h]; exact fun hc => by cases hc), h]

theorem orElseP_err_false {α : Type} {p q : PStream α} {s : List Char}
    (h : p s = .err false) : orElseP p q s = q s := by
  unfold orElseP
  rw [h]

theorem mapP_eq_ok {α β : Type} {f : α → β} {p : PStream α} {s : List Char}
    {b : β} {r : List Char} {c : Bool} (h : mapP f p s = .ok b r c) :
    ∃ a, p s = .ok a r c ∧ b = f a := by
  unfold mapP at h
  cases hp : p s with
  | ok a r2 c2 =>
    rw [hp] at h
    cases h
    exact ⟨a, rfl, rfl⟩
  | err c2 => rw [hp] at h; cases h

theorem mapP_committed {α β : Type} {f : α → β} {p : PStream α} {s : List Char}
    (h : Committed (p s)) : Committed (mapP f p s) := by
  unfold mapP
  cases hp : p s with
  | ok a r c => exact fun hc => by cases hc
  | err c =>
    cases c with
    | false => rw [hp] at h; exact absurd rfl h
    | true => exact fun hc => by cases hc

theorem seqP_err_false {α β : Type} {p : PStream α} {q : PStream β} {s : List Char}
    (h : p s = .err false) : seqP p q s = .err false := by
  unfold seqP
  rw [h]

theorem seqP_committed_of_consumed {α β : Type} {p : PStream α} {q : PStream β}
    {s : List Char} {a : α} {r : List Char} (h : p s = .ok a r true) :
    Committed (seqP p q s) := by
  intro hc
  unfold seqP at hc
  rw [h] at hc
  dsimp only at hc
  cases hq : q r with
  | ok b r2 c2 => rw [hq] at hc; cases hc
  | err c2 => rw [hq] at hc; simp at hc

theorem skipManySatisfy_not_head {pred : Char → Bool} {c : Char} {rest : List Char}
    (h : pred c = false) :
    skipManySatisfy pred (c :: rest) = .ok () (c :: rest) false := by
  simp [skipManySatisfy, List.dropWhile_cons, h]

theorem whiteP_charP_ne {ch c : Char} {rest : List Char}
    (hws : c.isWhitespace = false) (hne : c ≠ ch) :
    whiteP (charP ch) (c :: rest) = .err false := by
  simp [whiteP, betweenP, mapP, seqP, skipManySatisfy_not_head hws, charP, hne]

theorem whiteP_charP_eq {ch : Char} {rest : List Char}
    (hws : ch.isWhitespace = false) :
    whiteP (charP ch) (ch :: rest) = .ok ch (rest.dropWhile Char.isWhitespace) true := by
  simp [whiteP, betweenP, mapP, seqP, skipManySatisfy, charP,
    List.dropWhile_cons, hws, bne_self_eq_false]

theorem functionP_not_backslash {e : PStream Ast} {c : Char} {rest : List Char}
    (hws : c.isWhitespace = false) (hne : c ≠ '\\') :
    functionP e (c :: rest) = .err false := by
  simp [functionP, mapP, seqP_err_false (whiteP_charP_ne hws hne)]

theorem functionP_committed {e : PStream Ast} {rest : List Char} :
    Committed (functionP e ('\\' :: rest)) := by
  unfold functionP
  exact mapP_committed (seqP_committed_of_consumed
    (whiteP_charP_eq (by decide)))

theorem defineP_committed {e : PStream Ast} {rest : List Char} :
    Committed (defineP e ('=' :: rest)) := by
  unfold defineP
  exact mapP_committed (seqP_committed_of_consumed
    (whiteP_charP_eq (by decide)))

theorem functionP_shape {e : PStream Ast} {s : List Char} {a : Ast}
    {r : List Char} {c : Bool} (h : functionP e s = .ok a r c) :
    ∃ ps b, a = Ast.Lit (Value.Function ps b) := by
  unfold functionP at h
  obtain ⟨x, _, rfl⟩ := mapP_eq_ok h
  exact ⟨x.2.1, x.2.2, rfl⟩

theorem defineP_shape {e : PStream Ast} {s : List Char} {a : Ast}
    {r : List Char} {c : Bool} (h : defineP e s = .ok a r c) :
    ∃ nm v, a = Ast.Define nm v := by
  unfold defineP at h
  obtain ⟨x, _, rfl⟩ := mapP_eq_ok h
  exact ⟨x.2.1, x.2.2, rfl⟩

/-- C5: value equality holds exactly between same-tag values with equal
payloads (`Void == Void`, `False == False`, `Int a == Int b` iff `a = b`);
every cross-tag comparison is unequal, and any comparison involving a
`Function` or `InbuiltFunc` value, itself included, is unequal. -/
theorem claim5_value_equality :
    (valueEq .Void .Void = true) ∧ (valueEq .False .False = true)
    ∧ (∀ a b : Nat, valueEq (.Int a) (.Int b) = true ↔ a = b)
    ∧ (∀ v w : Value, tagOf v ≠ tagOf w → valueEq v w = false)
    ∧ (∀ (v : Value) (ps : List String) (b : List Ast),
        valueEq (.Function ps b) v = false ∧ valueEq v (.Function ps b) = false)
    ∧ (∀ (v : Value) (nm : String),
        valueEq (.InbuiltFunc nm) v = false ∧ valueEq v (.InbuiltFunc nm) = false) := by
  refine ⟨rfl, rfl, ?_, ?_, ?_, ?_⟩
  · intro a b
    simp [valueEq]
  · intro v w h
    cases v <;> cases w <;> simp_all [valueEq, tagOf]
  · intro v ps b
    cases v <;> simp [valueEq]
  · intro v nm
    cases v <;> simp [valueEq]

/-- C5 witness: a concrete cross-tag comparison discharged through the
theorem. -/
theorem claim5_value_equality_witness :
    tagOf Value.Void ≠ tagOf Value.False ∧ valueEq Value.Void Value.False = false :=
  ⟨by decide, claim5_value_equality.2.2.2.1 Value.Void Value.False (by decide)⟩

/-- C8: the conditional primitive implements Scheme-style truthiness with
`False` as the sole falsy value: `if_ [v, a, b]` returns `a` for every
`v` other than `False` and returns `b` for `v = False`. -/
theorem claim8_truthiness :
    ∀ v a b : Value,
    (v ≠ Value.False → if_ [v, a, b] = some a) ∧ if_ [Value.False, a, b] = some b := by
  intro v a b
  constructor
  · intro h
    cases v with
    | False => exact absurd rfl h
    | Void => rfl
    | Int n => rfl
    | Function ps bd => rfl
    | InbuiltFunc nm => rfl
  · rfl

/-- C8 witness: the truthy integer zero selects the then-value. -/
theorem claim8_truthiness_witness :
    if_ [Value.Int 0, Value.Int 1, Value.Int 2] = some (Value.Int 1) :=
  (claim8_truthiness (Value.Int 0) (Value.Int 1) (Value.Int 2)).1
    (fun h => by cases h)

/-- C1: a `Call` whose callee evaluates to `Function params body` runs as
follows: the new scope starts as a full copy of the caller's environment
(`bindArgsF` receives `env1` both as caller environment and as scope);
argument expressions are evaluated left-to-right against the caller's
threaded environment, never the new scope, and each value is bound to the
corresponding parameter in the new scope (the recursive `bindArgsF`
equation spelt out below); the body statements then run in order against
that scope, later statements seeing earlier `Define`s, the call's result
being the last statement's value; an empty body yields `Void`.  Two closed
end-to-end runs illustrate the pipeline. -/
theorem claim1_function_call :
    ∀ (ι : String → List Value → Value) (n : Nat) (callee : Ast) (args : List Ast)
      (env env1 env2 scope scope2 : Env) (params : List String) (body : List Ast)
      (w1 w2 w3 : List Warning) (out : Value),
    eval ι n callee env = some (.ok (.Function params body, env1, w1)) →
    bindArgsF (eval ι n) params args env1 env1 = some (.ok (env2, scope, w2)) →
    evalBodyF (eval ι n) body scope = some (.ok (out, scope2, w3)) →
    eval ι (n + 1) (.Call callee args) env =
      some (.ok (out, env2,
        w1 ++ (if args.length = params.length then []
               else [Warning.arityMismatch params.length args.length]) ++ w2 ++ w3))
    ∧ evalBodyF (eval ι n) [] scope = some (.ok (.Void, scope, []))
    ∧ (∀ (p : String) (ps : List String) (a : Ast) (rest : List Ast) (e s : Env),
        bindArgsF (eval ι n) (p :: ps) (a :: rest) e s =
          evalBind (eval ι n a e) fun vew =>
            evalBind (bindArgsF (eval ι n) ps rest vew.2.1 (s.insert p vew.1)) fun r =>
              some (.ok (r.1, r.2.1, vew.2.2 ++ r.2.2)))
    ∧ eval ι 3 (.Call (.Lit (.Function ["a"] [.Variable "a"])) [.Lit (.Int 7)]) [] =
        some (.ok (.Int 7, [], []))
    ∧ eval ι 4 (.Call (.Lit (.Function []
        [.Define "x" (.Lit (.Int 1)), .Variable "x"])) []) [] =
        some (.ok (.Int 1, [], [])) := by
  intro ι n callee args env env1 env2 scope scope2 params body w1 w2 w3 out h1 h2 h3
  refine ⟨?_, rfl, fun p ps a rest e s => rfl, rfl, rfl⟩
  simp only [eval]
  rw [h1]
  simp only [evalBind_ok]
  rw [h2]
  simp only [evalBind_ok]
  rw [h3]
  simp only [evalBind_ok]

/-- C1 witness: the theorem applied to the identity function call
`((\(a) a) 7)` with all hypotheses discharged by evaluation. -/
theorem claim1_function_call_witness :
    eval (fun _ _ => Value.Void) 2
      (.Call (.Lit (.Function ["a"] [.Variable "a"])) [.Lit (.Int 7)]) [] =
      some (.ok (.Int 7, [],
        [] ++ (if [Ast.Lit (Value.Int 7)].length = ["a"].length then []
               else [Warning.arityMismatch ["a"].length [Ast.Lit (Value.Int 7)].length])
           ++ [] ++ [])) :=
  (claim1_function_call (fun _ _ => Value.Void) 1
    (.Lit (.Function ["a"] [.Variable "a"])) [.Lit (.Int 7)]
    [] [] [] [("a", Value.Int 7)] [("a", Value.Int 7)] ["a"] [.Variable "a"]
    [] [] [] (.Int 7) rfl rfl rfl).1

/-- C2: for every call of a `Function` value, the environment the call
returns to the caller is exactly the one produced by callee and argument
evaluation (`env2` from `bindArgsF`) — body-level `Define`s go into the
discarded scope and never reach it.  Concretely, evaluating
`(= f (\() (= x 1) x))` and then calling `f` returns `Int 1` and leaves
the top-level environment exactly `[(f, …)]`, with `x` absent. -/
theorem claim2_scope_isolation :
    ∀ (ι : String → List Value → Value) (n : Nat) (callee : Ast) (args : List Ast)
      (env env1 envOut : Env) (params : List String) (body : List Ast)
      (w1 w : List Warning) (v : Value),
    eval ι n callee env = some (.ok (.Function params body, env1, w1)) →
    eval ι (n + 1) (.Call callee args) env = some (.ok (v, envOut, w)) →
    (∃ env2 scope w2,
      bindArgsF (eval ι n) params args env1 env1 = some (.ok (env2, scope, w2))
      ∧ envOut = env2)
    ∧ eval ι 2 (.Define "f" (.Lit (.Function []
        [.Define "x" (.Lit (.Int 1)), .Variable "x"]))) [] =
        some (.ok (.Void,
          [("f", .Function [] [.Define "x" (.Lit (.Int 1)), .Variable "x"])], []))
    ∧ eval ι 3 (.Call (.Variable "f") [])
        [("f", .Function [] [.Define "x" (.Lit (.Int 1)), .Variable "x"])] =
        some (.ok (.Int 1,
          [("f", .Function [] [.Define "x" (.Lit (.Int 1)), .Variable "x"])], []))
    ∧ Env.lookup
        [("f", Value.Function [] [.Define "x" (.Lit (.Int 1)), .Variable "x"])] "x"
        = none := by
  intro ι n callee args env env1 envOut params body w1 w v h1 h2
  refine ⟨?_, rfl, rfl, rfl⟩
  simp only [eval] at h2
  rw [h1] at h2
  simp only [evalBind_ok] at h2
  cases hb : bindArgsF (eval ι n) params args env1 env1 with
  | none => rw [hb] at h2; simp at h2
  | some x =>
    cases x with
    | error e => rw [hb] at h2; simp at h2
    | ok bs =>
      rw [hb] at h2
      simp only [evalBind_ok] at h2
      cases hbody : evalBodyF (eval ι n) body bs.2.1 with
      | none => rw [hbody] at h2; simp at h2
      | some y =>
        cases y with
        | error e => rw [hbody] at h2; simp at h2
        | ok outr =>
          rw [hbody] at h2
          simp only [evalBind_ok, Option.some.injEq, Except.ok.injEq,
            Prod.mk.injEq] at h2
          exact ⟨bs.1, bs.2.1, bs.2.2, rfl, h2.2.1.symm⟩

/-- C2 witness: the spec's own example, with both hypotheses discharged
by evaluating the concrete call of `f`; after the call, `x` is absent. -/
theorem claim2_scope_isolation_witness :
    Env.lookup
      [("f", Value.Function [] [.Define "x" (.Lit (.Int 1)), .Variable "x"])] "x"
      = none :=
  (claim2_scope_isolation (fun _ _ => Value.Void) 2 (.Variable "f") []
    [("f", .Function [] [.Define "x" (.Lit (.Int 1)), .Variable "x"])]
    [("f", .Function [] [.Define "x" (.Lit (.Int 1)), .Variable "x"])]
    [("f", .Function [] [.Define "x" (.Lit (.Int 1)), .Variable "x"])]
    [] [.Define "x" (.Lit (.Int 1)), .Variable "x"] [] [] (.Int 1)
    rfl rfl).2.2.2

/-- C3: evaluation has exactly two fatal failure conditions — looking up
an absent variable and calling a value that is neither a `Function` nor an
`InbuiltFunc` — and both abort with no partial result (an `Except.error`
carries nothing else); literals always succeed, a defined variable always
succeeds, and `Define` succeeds whenever its subexpression does, so no
other `Ast` shape fails of itself. -/
theorem claim3_fatal_failures :
    ∀ (ι : String → List Value → Value) (n : Nat) (ast : Ast) (env : Env),
    (∀ e, eval ι n ast env = some (.error e) →
      (∃ name, e = EvalErr.undefinedVariable name) ∨ e = EvalErr.notAFunction)
    ∧ (∀ v, eval ι (n + 1) (.Lit v) env = some (.ok (v, env, [])))
    ∧ (∀ name,
        (Env.lookup env name = none ↔
          eval ι (n + 1) (.Variable name) env =
            some (.error (.undefinedVariable name)))
        ∧ ∀ v, Env.lookup env name = some v →
            eval ι (n + 1) (.Variable name) env = some (.ok (v, env, [])))
    ∧ (∀ (callee : Ast) (args : List Ast) (fv : Value) (env1 : Env)
        (w1 : List Warning),
        eval ι n callee env = some (.ok (fv, env1, w1)) →
        (∀ ps b, fv ≠ .Function ps b) → (∀ nm, fv ≠ .InbuiltFunc nm) →
        eval ι (n + 1) (.Call callee args) env = some (.error .notAFunction))
    ∧ (∀ (name : String) (value : Ast) (v : Value) (env1 : Env) (w : List Warning),
        eval ι n value env = some (.ok (v, env1, w)) →
        eval ι (n + 1) (.Define name value) env =
          some (.ok (.Void, env1.insert name v, w))) := by
  intro ι n ast env
  refine ⟨?_, fun v => rfl, ?_, ?_, ?_⟩
  · intro e _
    cases e with
    | undefinedVariable name => exact Or.inl ⟨name, rfl⟩
    | notAFunction => exact Or.inr rfl
  · intro name
    constructor
    · constructor
      · intro h
        simp only [eval]
        rw [h]
      · intro h
        simp only [eval] at h
        cases hl : Env.lookup env name with
        | none => rfl
        | some v => rw [hl] at h; cases h
    · intro v h
      simp only [eval]
      rw [h]
  · intro callee args fv env1 w1 h hf hi
    cases fv with
    | Function ps b => exact absurd rfl (hf ps b)
    | InbuiltFunc nm => exact absurd rfl (hi nm)
    | Void => simp only [eval]; rw [h]; rfl
    | False => simp only [eval]; rw [h]; rfl
    | Int k => simp only [eval]; rw [h]; rfl
  · intro name value v env1 w h
    simp only [eval]
    rw [h]
    rfl

/-- C3 witness: calling the integer literal `0` is the non-function
fatal error, with the hypotheses discharged concretely. -/
theorem claim3_fatal_failures_witness :
    eval (fun _ _ => Value.Void) 2 (.Call (.Lit (.Int 0)) []) [] =
      some (.error .notAFunction) :=
  (claim3_fatal_failures (fun _ _ => Value.Void) 1 (.Lit (.Int 0)) []).2.2.2.1
    (.Lit (.Int 0)) [] (.Int 0) [] [] rfl
    (fun ps b h => by cases h) (fun nm h => by cases h)

/-- C4: calling a `Function` with an argument count different from its
parameter count is not fatal: the call still completes, emitting exactly
the arity warning (expected = parameter count, got = argument count), with
parameters bound pairwise up to the shorter sequence; parameter names
beyond the supplied arguments are never inserted, so they keep whatever
the copied caller environment had — and when absent there, a body lookup
of one fails with the fatal undefined-variable error, as in the closed
example `((\(a b) b) 1)`. -/
theorem claim4_arity_mismatch :
    ∀ (ι : String → List Value → Value) (n : Nat) (callee : Ast) (args : List Ast)
      (env env1 env2 scope scope2 : Env) (params : List String) (body : List Ast)
      (w1 w2 w3 : List Warning) (out : Value),
    eval ι n callee env = some (.ok (.Function params body, env1, w1)) →
    args.length ≠ params.length →
    bindArgsF (eval ι n) params args env1 env1 = some (.ok (env2, scope, w2)) →
    evalBodyF (eval ι n) body scope = some (.ok (out, scope2, w3)) →
    eval ι (n + 1) (.Call callee args) env =
      some (.ok (out, env2,
        w1 ++ [Warning.arityMismatch params.length args.length] ++ w2 ++ w3))
    ∧ (∀ k, k ∉ params.take args.length →
        Env.lookup scope k = Env.lookup env1 k)
    ∧ eval ι 3 (.Call (.Lit (.Function ["a", "b"] [.Variable "b"]))
        [.Lit (.Int 1)]) [] = some (.error (.undefinedVariable "b")) := by
  intro ι n callee args env env1 env2 scope scope2 params body w1 w2 w3 out
    h1 hne h2 h3
  refine ⟨?_, ?_, rfl⟩
  · simp only [eval]
    rw [h1]
    simp only [evalBind_ok]
    rw [h2]
    simp only [evalBind_ok]
    rw [h3]
    simp only [evalBind_ok, if_neg hne]
  · intro k hk
    exact bindArgsF_lookup_take (eval ι n) params args env1 env1 env2 scope w2 h2 k hk

/-- C4 witness: calling a two-parameter constant function with one
argument succeeds with only the arity warning. -/
theorem claim4_arity_mismatch_witness :
    eval (fun _ _ => Value.Void) 2
      (.Call (.Lit (.Function ["a", "b"] [.Lit (.Int 9)])) [.Lit (.Int 1)]) [] =
      some (.ok (.Int 9, [],
        [] ++ [Warning.arityMismatch 2 1] ++ [] ++ [])) :=
  (claim4_arity_mismatch (fun _ _ => Value.Void) 1
    (.Lit (.Function ["a", "b"] [.Lit (.Int 9)])) [.Lit (.Int 1)]
    [] [] [] [("a", Value.Int 1)] [("a", Value.Int 1)] ["a", "b"]
    [.Lit (.Int 9)] [] [] [] (.Int 9)
    rfl (by decide) rfl rfl).1

/-- C9: argument evaluation is asymmetric between the two callable kinds.
For a `Function` callee the parameter/argument zip means only the first
`params.length` argument expressions are ever touched — `bindArgsF` is
literally unchanged by dropping the surplus — while an `InbuiltFunc`
callee evaluates every argument (a successful `evalListF` returns exactly
one value per argument, and any argument failure fails the whole call).
The closed contrast: a surplus undefined-variable argument to a
zero-parameter `Function` is ignored, while the same argument to an
`InbuiltFunc` aborts with the fatal undefined-variable error. -/
theorem claim9_argument_asymmetry :
    ∀ (ι : String → List Value → Value) (n : Nat),
    (∀ (ev : Ast → Env → Option (Except EvalErr EvalOut))
        (params : List String) (args : List Ast) (env scope : Env),
      bindArgsF ev params args env scope =
        bindArgsF ev params (args.take params.length) env scope)
    ∧ (∀ (callee : Ast) (args : List Ast) (env env1 : Env) (nm : String)
        (w1 : List Warning),
        eval ι n callee env = some (.ok (.InbuiltFunc nm, env1, w1)) →
        (∀ vals env2 w2,
          evalListF (eval ι n) args env1 = some (.ok (vals, env2, w2)) →
          vals.length = args.length
          ∧ eval ι (n + 1) (.Call callee args) env =
              some (.ok (ι nm vals, env2, w1 ++ w2)))
        ∧ (∀ e, evalListF (eval ι n) args env1 = some (.error e) →
            eval ι (n + 1) (.Call callee args) env = some (.error e)))
    ∧ eval ι 2 (.Call (.Lit (.Function [] [.Lit (.Int 7)])) [.Variable "nope"]) []
        = some (.ok (.Int 7, [], [.arityMismatch 0 1]))
    ∧ eval ι 2 (.Call (.Variable "g") [.Variable "nope"])
        [("g", .InbuiltFunc "g")] = some (.error (.undefinedVariable "nope")) := by
  intro ι n
  refine ⟨fun ev params args env scope => bindArgsF_take ev params args env scope,
    ?_, rfl, rfl⟩
  intro callee args env env1 nm w1 h1
  constructor
  · intro vals env2 w2 h2
    refine ⟨evalListF_length (eval ι n) args env1 vals env2 w2 h2, ?_⟩
    simp only [eval]
    rw [h1]
    simp only [evalBind_ok]
    rw [h2]
    rfl
  · intro e h2
    simp only [eval]
    rw [h1]
    simp only [evalBind_ok]
    rw [h2]
    rfl

/-- C9 witness: the theorem applied to a concrete builtin call whose
single argument evaluates, giving exactly one collected value. -/
theorem claim9_argument_asymmetry_witness :
    eval (fun _ _ => Value.Void) 2 (.Call (.Variable "g") [.Lit (.Int 4)])
      [("g", Value.InbuiltFunc "g")] =
      some (.ok (Value.Void, [("g", Value.InbuiltFunc "g")], [] ++ [])) :=
  (((claim9_argument_asymmetry (fun _ _ => Value.Void) 1).2.1
    (.Variable "g") [.Lit (.Int 4)]
    [("g", Value.InbuiltFunc "g")] [("g", Value.InbuiltFunc "g")] "g" []
    rfl).1 [Value.Int 4] [("g", Value.InbuiltFunc "g")] [] rfl).2

/-- C10: the callee's scope is snapshotted from the caller's environment
before any argument is evaluated: argument binding only ever inserts
parameter names, so every other key keeps the value it had in the
snapshot, even when an argument expression `Define`s it into the caller's
environment.  Concretely, calling `(\(p) …)` with the argument
`(= y 5)`: the binding `y ↦ 5` is present in the caller's environment
after the call; a body that reads `y` fails with the fatal
undefined-variable error; and when `y` is itself the parameter, the body
sees the argument's value (`Void`), not `5`. -/
theorem claim10_scope_snapshot :
    ∀ (ι : String → List Value → Value)
      (ev : Ast → Env → Option (Except EvalErr EvalOut))
      (params : List String) (args : List Ast) (env scope env2 scope2 : Env)
      (w : List Warning),
    bindArgsF ev params args env scope = some (.ok (env2, scope2, w)) →
    (∀ k, k ∉ params → Env.lookup scope2 k = Env.lookup scope k)
    ∧ eval ι 3 (.Call (.Lit (.Function ["p"] [.Lit .Void]))
        [.Define "y" (.Lit (.Int 5))]) [] =
        some (.ok (.Void, [("y", .Int 5)], []))
    ∧ Env.lookup [("y", Value.Int 5)] "y" = some (.Int 5)
    ∧ eval ι 3 (.Call (.Lit (.Function ["p"] [.Variable "y"]))
        [.Define "y" (.Lit (.Int 5))]) [] =
        some (.error (.undefinedVariable "y"))
    ∧ eval ι 3 (.Call (.Lit (.Function ["y"] [.Variable "y"]))
        [.Define "y" (.Lit (.Int 5))]) [] =
        some (.ok (.Void, [("y", .Int 5)], [])) := by
  intro ι ev params args env scope env2 scope2 w h
  refine ⟨?_, rfl, rfl, rfl, rfl⟩
  intro k hk
  exact bindArgsF_lookup_take ev params args env scope env2 scope2 w h k
    (fun hmem => hk (List.take_subset _ _ hmem))

/-- C10 witness: the theorem applied to a concrete one-parameter binding;
the unrelated key `z` keeps its snapshot value. -/
theorem claim10_scope_snapshot_witness :
    Env.lookup [("p", Value.Int 1)] "z" = Env.lookup ([] : Env) "z" :=
  (claim10_scope_snapshot (fun _ _ => Value.Void)
    (eval (fun _ _ => Value.Void) 1) ["p"] [.Lit (.Int 1)] [] [] []
    [("p", Value.Int 1)] [] rfl).1 "z" (by decide)

/-- C7: evaluation is deterministic with no hidden state.  `eval` is a
pure function of the syntax tree, the host table, the fuel and the
passed-in environment, so two runs of the same `Ast` against environments
with identical contents return the identical value and warnings, and
their resulting environments again have identical contents — no effect of
a run survives anywhere except in the environment threaded through it. -/
theorem claim7_determinism :
    ∀ (ι : String → List Value → Value) (n : Nat) (ast : Ast)
      (env1 env2 e1 e2 : Env) (v1 v2 : Value) (w1 w2 : List Warning),
    (∀ k, Env.lookup env1 k = Env.lookup env2 k) →
    eval ι n ast env1 = some (.ok (v1, e1, w1)) →
    eval ι n ast env2 = some (.ok (v2, e2, w2)) →
    v1 = v2 ∧ w1 = w2 ∧ ∀ k, Env.lookup e1 k = Env.lookup e2 k := by
  intro ι n ast env1 env2 e1 e2 v1 v2 w1 w2 henv h1 h2
  have hrel := eval_envEquiv ι n ast henv
  rw [h1, h2] at hrel
  cases hrel with
  | okRel hp => exact ⟨hp.1, hp.2.2, hp.2.1⟩

/-- C7 witness: two runs of the same literal against empty environments
agree on value and warnings. -/
theorem claim7_determinism_witness :
    Value.Int 3 = Value.Int 3 ∧ ([] : List Warning) = [] :=
  have h := claim7_determinism (fun _ _ => Value.Void) 1 (.Lit (.Int 3))
    [] [] [] [] (.Int 3) (.Int 3) [] [] (fun _ => rfl) rfl rfl
  ⟨h.1, h.2.1⟩

/-- C6: inside parentheses the parser tries the productions in the fixed
priority order function literal, define, call, committing to the first
alternative that succeeds (and to any alternative that fails after
consuming input): a successful `function` parse is the result; `define`
is consulted only after `function` fails without consuming, `call` only
after both do.  Consequently an inner form starting with a backslash is
decided entirely by the `function` production — yielding a `Function`
literal, never a `Call` — and a form starting with an equals sign is
decided entirely by the `define` production — yielding a `Define`, never
a `Call`.  The last conjunct ties the alternatives to the recursive
`expr` parser. -/
theorem claim6_parser_priority :
    ∀ (e : PStream Ast) (s : List Char),
    (∀ (a : Ast) (rest : List Char) (c : Bool),
        functionP e s = .ok a rest c → parenInnerP e s = .ok a rest c)
    ∧ (functionP e s = .err false →
        ∀ (a : Ast) (rest : List Char) (c : Bool),
        defineP e s = .ok a rest c → parenInnerP e s = .ok a rest c)
    ∧ (functionP e s = .err false → defineP e s = .err false →
        parenInnerP e s = callP e s)
    ∧ (∀ rest, s = '\\' :: rest →
        parenInnerP e s = functionP e s
        ∧ ∀ (a : Ast) (r2 : List Char) (c2 : Bool),
            functionP e s = .ok a r2 c2 →
            ∃ ps b, a = Ast.Lit (Value.Function ps b))
    ∧ (∀ rest, s = '=' :: rest →
        functionP e s = .err false
        ∧ parenInnerP e s = defineP e s
        ∧ ∀ (a : Ast) (r2 : List Char) (c2 : Bool),
            defineP e s = .ok a r2 c2 → ∃ nm v, a = Ast.Define nm v)
    ∧ (∀ m, expr (m + 1) = exprF (expr m)) := by
  intro e s
  refine ⟨?_, ?_, ?_, ?_, ?_, fun m => rfl⟩
  · intro a rest c h
    unfold parenInnerP
    exact orElseP_ok h
  · intro hf a rest c h
    unfold parenInnerP
    rw [orElseP_err_false hf]
    exact orElseP_ok h
  · intro hf hd
    unfold parenInnerP
    rw [orElseP_err_false hf, orElseP_err_false hd]
  · intro rest hs
    subst hs
    constructor
    · unfold parenInnerP
      exact orElseP_of_committed functionP_committed
    · intro a r2 c2 h
      exact functionP_shape h
  · intro rest hs
    subst hs
    have hf : functionP e ('=' :: rest) = .err false :=
      functionP_not_backslash (by decide) (by decide)
    refine ⟨hf, ?_, fun a r2 c2 h => defineP_shape h⟩
    unfold parenInnerP
    rw [orElseP_err_false hf]
    exact orElseP_of_committed defineP_committed

/-- C6 witness: on the concrete inner text of `(\())` the paren
alternatives reduce to the function production. -/
theorem claim6_parser_priority_witness :
    parenInnerP (expr 0) ['\\', '(', ')'] = functionP (expr 0) ['\\', '(', ')'] :=
  ((claim6_parser_priority (expr 0) ['\\', '(', ')']).2.2.2.1 ['(', ')'] rfl).1
